import Mathlib

/-!
Shallow embedding of the preprocessing pipeline of `bach_propagation`
(file `src/preprocessing.py`) and proofs about the claims of its
specification.

Modelling conventions:
* A parsed message (mido) is a flat record `Msg`; the code only ever reads
  the fields `type`, `time`, `note`, `velocity`, `key` and the meta-message
  test `isinstance(msg, MetaMessage)` (field `isMeta`).  Per the spec the
  parser is an external collaborator and streams are consumed as plain
  records; the range validation mido performs on pitch values is part of
  that external collaborator and is not modelled (no claim concerns it).
* Python ints are modelled as `Nat`/`Int`.  Python floats appearing in this
  file (`ticks_per_beat / 2`, `interval // 4`, `max_length / interval`,
  `train_test_split * len`) are modelled as exact rationals: every float
  value the code produces on realistic corpus sizes is an exact dyadic
  rational or is consumed only through `floor`/`ceil`/`int()` at points
  where the float rounding error (relative error about 1e-16) cannot move
  the result across an integer for inputs of realistic magnitude.
* Code that raises (KeyError on an unknown key signature, IndexError on an
  out-of-range array write or on indexing an empty track list,
  ZeroDivisionError) is modelled with `Option`, `none` meaning the Python
  exception propagates.
-/

namespace Preproc

/-- One parsed midi message.  Only the fields the code reads are modelled. -/
structure Msg where
  type : String
  time : Nat
  note : Int := 0
  velocity : Nat := 0
  key : String := ""
  isMeta : Bool := false
deriving DecidableEq

/-- One parsed midi file: `ticks_per_beat` and the list of tracks. -/
structure MidiFile where
  ticks_per_beat : Nat
  tracks : List (List Msg)
deriving DecidableEq

/-- The transposition dictionary `reference` of `normalize`
(src/preprocessing.py lines 50-55), as a total function returning `none`
for a key absent from the dictionary (Python KeyError). -/
def reference : String → Option Int
| "B#" => some 0
| "C" => some 0
| "C#" => some (-1)
| "Db" => some (-1)
| "D" => some (-2)
| "D#" => some (-3)
| "Eb" => some (-3)
| "E" => some (-4)
| "Fb" => some (-4)
| "E#" => some (-5)
| "F" => some (-5)
| "F#" => some (-6)
| "Gb" => some (-6)
| "G" => some 5
| "G#" => some 4
| "Ab" => some 4
| "A" => some 3
| "A#" => some 2
| "Bb" => some 2
| "B" => some 1
| "Cb" => some 1
| "B#m" => some (-3)
| "Cm" => some (-3)
| "C#m" => some (-4)
| "Dbm" => some (-4)
| "Dm" => some (-5)
| "D#m" => some (-6)
| "Ebm" => some (-6)
| "Em" => some (-7)
| "Fbm" => some (-7)
| "E#m" => some 4
| "Fm" => some 4
| "F#m" => some 3
| "Gbm" => some 3
| "Gm" => some 2
| "G#m" => some 1
| "Abm" => some 1
| "Am" => some 0
| "A#m" => some (-1)
| "Bbm" => some (-1)
| "Bm" => some (-2)
| "Cbm" => some (-2)
| _ => none

/-- The key-signature scan of one track (the first inner `for msg in track`
loop of `normalize`): starting from the carried key `k`, the last
key-signature meta message of the track wins. -/
def scan_key (k : String) (track : List Msg) : String :=
  track.foldl (fun acc msg =>
    if msg.isMeta = true ∧ msg.type = "key_signature" then msg.key else acc) k

/-- The transposition loop of `normalize` (second inner `for msg in track`
loop): add `d` to the pitch of every message whose type is note_on. -/
def apply_diff (d : Int) (track : List Msg) : List Msg :=
  track.map fun msg =>
    if msg.type = "note_on" then { msg with note := msg.note + d } else msg

/-- The outer `for i, track in enumerate(midi_file.tracks)` loop of
`normalize`.  The Python variable `key` is carried across iterations
(it is assigned before the loop and only reassigned when a track contains
a key_signature message); each track is transposed by the offset of the
key obtained after scanning that same track.  `none` models the KeyError
raised when the current key is not in `reference`. -/
def normalize_tracks (k : String) : List (List Msg) → Option (List (List Msg))
| [] => some []
| t :: ts =>
  let k2 := scan_key k t
  match reference k2 with
  | none => none
  | some d =>
    match normalize_tracks k2 ts with
    | none => none
    | some rest => some (apply_diff d t :: rest)

/-- The function `normalize` (src/preprocessing.py lines 29-64).  The
initial key is "C"; `ticks_per_beat` is assigned 120 inside the per-track
loop, hence only when the piece has at least one track. -/
def normalize (m : MidiFile) : Option MidiFile :=
  match normalize_tracks "C" m.tracks with
  | none => none
  | some ts2 =>
    some { ticks_per_beat := if m.tracks.isEmpty then m.ticks_per_beat else 120,
           tracks := ts2 }

/-- Modelled from the claim C1 wording (not from the code): a single
governing key, the last key-signature declaration encountered while
scanning all tracks in stream order, whose offset is added to every
note-on pitch of every track. -/
def last_key_all_tracks (m : MidiFile) : String :=
  m.tracks.foldl scan_key "C"

/-- Modelled from the claim C1 wording (not from the code): the normalizer
the claim describes, used only to compare against `normalize`. -/
def normalize_claimed (m : MidiFile) : Option MidiFile :=
  match reference (last_key_all_tracks m) with
  | none => none
  | some d =>
    some { ticks_per_beat := if m.tracks.isEmpty then m.ticks_per_beat else 120,
           tracks := m.tracks.map (apply_diff d) }

/-- Total delta-time of a track: `sum([m.time for m in track])`. -/
def sum_times (track : List Msg) : Nat :=
  (track.map Msg.time).sum

/-- The condition of the write in `sample_midi_track`:
`msg.type=='note_off' or (msg.type=='note_on' and msg.velocity==0)`. -/
def off_event (msg : Msg) : Bool :=
  msg.type == "note_off" || (msg.type == "note_on" && msg.velocity == 0)

/-- Exact trip count of the `while cur_time < next_msg_time` loop of
`sample_midi_track` when `interval` is positive: the loop adds `interval`
to `cur_time` each iteration, so it runs `ceil((next - cur) / interval)`
times (0 when that is negative).  For `interval <= 0` the Python loop does
not terminate; that case is not modelled (every theorem below assumes a
positive interval, and the code only ever passes `ticks_per_beat / 2`). -/
def trip_count (i cur next : ℚ) : Nat :=
  if 0 < i then (⌈(next - cur) / i⌉).toNat else 0

/-- One run of the `while cur_time < next_msg_time` loop body of
`sample_midi_track`, with the loop guard rechecked at each step and fuel
equal to the exact trip count.  State: current sampling cursor, next write
index, sample buffer.  The write `samples[arr_index] = msg.note` is an
IndexError (`none`) when `arr_index` is outside the buffer; iterations for
a non-off message advance the cursor and index without touching the
buffer, so they cannot fail. -/
def run_while (i : ℚ) (isOff : Bool) (note : Int) (next : ℚ) :
    Nat → ℚ → Nat → List Int → Option (ℚ × Nat × List Int)
| 0, cur, idx, s => some (cur, idx, s)
| Nat.succ fuel, cur, idx, s =>
  if cur < next then
    if isOff then
      if idx < s.length then
        run_while i isOff note next fuel (cur + i) (idx + 1) (s.set idx note)
      else none
    else run_while i isOff note next fuel (cur + i) (idx + 1) s
  else some (cur, idx, s)

/-- The `for msg in track` loop of `sample_midi_track`: accumulate the
elapsed time `next_msg_time`, then run the inner while loop. -/
def sample_go (i : ℚ) : List Msg → ℚ → Nat → Nat → List Int → Option (List Int)
| [], _, _, _, s => some s
| msg :: rest, cur, next, idx, s =>
  match run_while i (off_event msg) msg.note ((next + msg.time : Nat) : ℚ)
      (trip_count i cur ((next + msg.time : Nat) : ℚ)) cur idx s with
  | none => none
  | some (cur2, idx2, s2) => sample_go i rest cur2 (next + msg.time) idx2 s2

/-- The function `sample_midi_track` (src/preprocessing.py lines 68-100).
The cursor starts at `interval // 4` (Python float floor division, i.e.
`⌊interval / 4⌋`); the buffer starts as `num_samples` zeros. -/
def sample_midi_track (track : List Msg) (interval : ℚ) (num_samples : Nat) :
    Option (List Int) :=
  sample_go interval track ((⌊interval / 4⌋ : Int) : ℚ) 0 0
    (List.replicate num_samples 0)

/-- Collect a list of optional values, `none` when any element is `none`
(a raised exception propagates out of the list comprehension building
`piano_roll`). -/
def opt_list : List (Option (List Int)) → Option (List (List Int))
| [] => some []
| none :: _ => none
| some a :: os =>
  match opt_list os with
  | none => none
  | some rest => some (a :: rest)

/-- The remaining tracks of a piece: `tracks = midi_file.tracks[1:]`
(the first, metadata, track is dropped). -/
def pr_tracks (m : MidiFile) : List (List Msg) :=
  m.tracks.drop 1

/-- The voice selection of `piano_roll`: when more than 3 tracks remain,
`np.random.choice(tracks, 3, replace=False)` picks 3 of them, seeded from
`len(tracks[0])`.  The Mersenne-Twister draw itself is not reproduced;
it is modelled as a selection function `select`, universally quantified in
every theorem, so every theorem covers the actual seeded draw. -/
def pr_selected (select : List (List Msg) → List (List Msg)) (m : MidiFile) :
    List (List Msg) :=
  if (pr_tracks m).length > 3 then select (pr_tracks m) else pr_tracks m

/-- `ticks_per_eighth_note = midi_file.ticks_per_beat / 2` (Python true
division, an exact dyadic rational). -/
def pr_interval (m : MidiFile) : ℚ :=
  (m.ticks_per_beat : ℚ) / 2

/-- `max([sum([m.time for m in track]) for track in tracks])`, the largest
total delta-time over the selected tracks (0 would be the value for the
empty maximum, but `piano_roll` raises on an empty selection before
reaching it). -/
def pr_max_dur (select : List (List Msg) → List (List Msg)) (m : MidiFile) : Nat :=
  ((pr_selected select m).map sum_times).foldl max 0

/-- `num_samples = np.ceil(max_length / ticks_per_eighth_note).astype('int')`
with `max_length = max(...) + ticks_per_eighth_note // 4` (float floor
division). -/
def pr_num_samples (select : List (List Msg) → List (List Msg)) (m : MidiFile) : Nat :=
  (⌈(((pr_max_dur select m : Nat) : ℚ) + ((⌊pr_interval m / 4⌋ : Int) : ℚ)) /
      pr_interval m⌉).toNat

/-- The function `piano_roll` (src/preprocessing.py lines 103-134).
`none` models, in code order: the IndexError of `len(tracks[0])` on a
piece left with no tracks; the ValueError of `max` on an empty selection;
the ZeroDivisionError of `max_length / ticks_per_eighth_note` when
`ticks_per_beat` is 0; a propagated IndexError from `sample_midi_track`.
The transpose and per-step ascending sort of the numpy array are the
row-major reading `samples.map (fun s => s.getD j 0)` for step `j` and an
insertion sort; each step is serialized by joining the sorted pitches with
"-". -/
def piano_roll (select : List (List Msg) → List (List Msg)) (m : MidiFile) :
    Option (List String) :=
  match pr_tracks m with
  | [] => none
  | _ :: _ =>
    match pr_selected select m with
    | [] => none
    | _ :: _ =>
      if m.ticks_per_beat = 0 then none
      else
        match opt_list ((pr_selected select m).map fun t =>
            sample_midi_track t (pr_interval m) (pr_num_samples select m)) with
        | none => none
        | some samples =>
          some ((List.range (pr_num_samples select m)).map fun j =>
            String.intercalate "-"
              ((List.insertionSort (fun a b => a ≤ b)
                  (samples.map fun s => s.getD j 0)).map (fun z => toString z)))

/-- The function `build_vocab` (src/preprocessing.py lines 149-166),
dictionaries modelled as association lists in insertion order; the state
is `(token_to_id, id_to_token, highest_id)`. -/
def build_vocab_go : List String → List (String × Nat) → List (Nat × String) → Nat →
    List (String × Nat) × List (Nat × String)
| [], t2i, i2t, _ => (t2i, i2t)
| t :: ts, t2i, i2t, h =>
  match List.lookup t t2i with
  | some _ => build_vocab_go ts t2i i2t h
  | none => build_vocab_go ts (t2i ++ [(t, h)]) (i2t ++ [(h, t)]) (h + 1)

/-- `build_vocab`: scan the tokens once, assigning the next unused id to
each token not already mapped. -/
def build_vocab (tokens : List String) : List (String × Nat) × List (Nat × String) :=
  build_vocab_go tokens [] [] 0

/-- The function `tokens_to_ids` (src/preprocessing.py lines 169-177):
a token in the vocabulary maps to its id, any other token to 0. -/
def tokens_to_ids : List String → List (String × Nat) → List Nat
| [], _ => []
| t :: ts, v =>
  (match List.lookup t v with
   | some k => k
   | none => 0) :: tokens_to_ids ts v

/-- A Python slice `xs[a:b]` with the Python index normalization: a
negative endpoint counts from the end, then both endpoints are clamped to
`[0, len(xs)]`. -/
def py_slice {α : Type} (xs : List α) (a b : Int) : List α :=
  let n := xs.length
  let norm := fun (i : Int) => (if i < 0 then max 0 ((n : Int) + i) else min (n : Int) i).toNat
  (xs.take (norm b)).drop (norm a)

/-- The module constant `train_test_split = 0.8`, exactly 4/5 (the float
0.8 differs from 4/5 by about 4e-17; multiplied by a corpus length below
2^52 and truncated by `int(...)` this never changes the result, see the
module comment). -/
def train_test_split : ℚ := 4 / 5

/-- The module constant `piece_starter_len = 80` (declared and unused by
the code; the starter extraction below hard-codes 64). -/
def piece_starter_len : Nat := 80

/-- `train_length = int(train_test_split * len(all_notes))`: the float
product truncated by `int(...)`, i.e. the floor of the exact product for
the nonnegative values at hand. -/
def train_boundary (n : Nat) : Nat :=
  (⌊train_test_split * (n : ℚ)⌋).toNat

/-- Result record of `get_data`, one field per returned value. -/
structure DataOut where
  train_input_ids : List Nat
  train_label_ids : List Nat
  test_input_ids : List Nat
  test_label_ids : List Nat
  token_to_id : List (String × Nat)
  id_to_token : List (Nat × String)
  piece_starters : List (List Nat)
deriving DecidableEq

/-- The assembly part of `get_data` (src/preprocessing.py lines 196-223)
as a function of the per-piece rolls (`rolled`): loading the corpus and
computing each `piano_roll(midi_files[f])` is the part of `get_data`
upstream of this function.  `all_notes = np.concatenate(rolled)`,
`train_length = int(train_test_split * len(all_notes))`, then the four
Python slices and the per-piece starters `tokens_to_ids(rolled[f][:64])`
under the training vocabulary. -/
def get_data (rolls : List (List String)) : DataOut :=
  let all_notes := rolls.flatten
  let n := all_notes.length
  let train_length := train_boundary n
  let train_inputs := py_slice all_notes 0 ((train_length : Int) - 1)
  let voc := build_vocab train_inputs
  { train_input_ids := tokens_to_ids train_inputs voc.1
    train_label_ids := tokens_to_ids (py_slice all_notes 1 (train_length : Int)) voc.1
    test_input_ids := tokens_to_ids (py_slice all_notes (train_length : Int) (-1)) voc.1
    test_label_ids := tokens_to_ids (py_slice all_notes ((train_length : Int) + 1) (n : Int)) voc.1
    token_to_id := voc.1
    id_to_token := voc.2
    piece_starters := rolls.map fun roll => tokens_to_ids (roll.take 64) voc.1 }

/-- The function `get_batch` (src/preprocessing.py lines 137-146): plain
contiguous slices of inputs and labels. -/
def get_batch {α β : Type} (inputs : List α) (labels : List β) (start batch_size : Nat) :
    List α × List β :=
  (py_slice inputs (start : Int) ((start : Int) + batch_size),
   py_slice labels (start : Int) ((start : Int) + batch_size))

/-- A default message used with `List.getD` in statements. -/
def msg0 : Msg :=
  { type := "", time := 0 }

/-- Piece refuting the single-governing-key reading of C1: the first track
declares D and holds a note, the second track declares G.  The code
transposes the first track by the D offset (-2); a single governing key
(the last declaration in stream order, G) would transpose it by +5. -/
def c1_piece : MidiFile :=
  { ticks_per_beat := 96,
    tracks := [[{ type := "key_signature", time := 0, key := "D", isMeta := true },
                { type := "note_on", time := 5, note := 62, velocity := 90 }],
               [{ type := "key_signature", time := 0, key := "G", isMeta := true }]] }

/-- What `normalize` actually returns on `c1_piece`. -/
def c1_out : MidiFile :=
  { ticks_per_beat := 120,
    tracks := [[{ type := "key_signature", time := 0, key := "D", isMeta := true },
                { type := "note_on", time := 5, note := 60, velocity := 90 }],
               [{ type := "key_signature", time := 0, key := "G", isMeta := true }]] }

/-- Piece used to instantiate the frame theorem: one track with a note-on
and a note-off. -/
def c7_piece : MidiFile :=
  { ticks_per_beat := 96,
    tracks := [[{ type := "note_on", time := 5, note := 62, velocity := 90 },
                { type := "note_off", time := 10, note := 62 }]] }

/-- What `normalize` returns on `c7_piece` (key defaults to "C", offset 0). -/
def c7_out : MidiFile :=
  { ticks_per_beat := 120,
    tracks := [[{ type := "note_on", time := 5, note := 62, velocity := 90 },
                { type := "note_off", time := 10, note := 62 }]] }

/-- The event stream of the C2 scenario: note-on pitch 64 velocity 100 at
delta 0, then note-off pitch 64 at delta 59. -/
def c2_track : List Msg :=
  [{ type := "note_on", time := 0, note := 64, velocity := 100 },
   { type := "note_off", time := 59, note := 64 }]

/-- Piece instantiating the length formula: normalized ticks-per-beat
(120), one selected track of total duration 30. -/
def c4_piece : MidiFile :=
  { ticks_per_beat := 120,
    tracks := [[], [{ type := "note_off", time := 30, note := 64 }]] }

/-- Piece refuting the unfloored length formula of C4: ticks-per-beat 121
gives interval 60.5, whose floored quarter is 15 while the exact quarter
is 15.125; with a track duration of 106 the code produces
ceil((106+15)/60.5) = 2 samples but the claimed formula gives
ceil((106+15.125)/60.5) = 3. -/
def c4_cex_piece : MidiFile :=
  { ticks_per_beat := 121,
    tracks := [[], [{ type := "note_on", time := 106, note := 60, velocity := 100 }]] }

/-- The tokens of a list in first-occurrence order, accumulated into
`acc`: an independent specification of insertion order used to
characterize `build_vocab`. -/
def first_occ_go : List String → List String → List String
| acc, [] => acc
| acc, t :: ts => if t ∈ acc then first_occ_go acc ts else first_occ_go (acc ++ [t]) ts

/-- The distinct tokens of a list in first-occurrence order. -/
def first_occ (ts : List String) : List String :=
  first_occ_go [] ts

/-- The token list paired with consecutive ids starting at `k`. -/
def enum_from_l : Nat → List String → List (String × Nat)
| _, [] => []
| k, s :: ss => (s, k) :: enum_from_l (k + 1) ss

/-- The consecutive ids starting at `k` paired with the token list. -/
def enum_from_r : Nat → List String → List (Nat × String)
| _, [] => []
| k, s :: ss => (k, s) :: enum_from_r (k + 1) ss

example : scan_key "C" [{ type := "key_signature", time := 0, key := "D", isMeta := true }] = "D" := by
  decide

example : normalize { ticks_per_beat := 100, tracks := [] } =
    some { ticks_per_beat := 100, tracks := [] } := by decide

example : normalize
    { ticks_per_beat := 96,
      tracks := [[{ type := "key_signature", time := 0, key := "D", isMeta := true },
                  { type := "note_on", time := 5, note := 62, velocity := 90 }],
                 [{ type := "key_signature", time := 0, key := "G", isMeta := true }]] } =
    some { ticks_per_beat := 120,
           tracks := [[{ type := "key_signature", time := 0, key := "D", isMeta := true },
                       { type := "note_on", time := 5, note := 60, velocity := 90 }],
                      [{ type := "key_signature", time := 0, key := "G", isMeta := true }]] } := by
  decide

/-- Ceiling on the rationals expressed through the floor, so that simp and
norm_num (which evaluate concrete floors) can evaluate concrete ceilings. -/
theorem ceil_via_floor (a : ℚ) : (⌈a⌉ : Int) = -⌊-a⌋ := by
  rw [Int.floor_neg, neg_neg]

example : sample_midi_track
    [{ type := "note_on", time := 0, note := 64, velocity := 100 },
     { type := "note_off", time := 59, note := 64 }] 40 3 =
    some [64, 64, 0] := by
  norm_num [sample_midi_track, sample_go, run_while, trip_count, off_event,
    ceil_via_floor, Int.toNat_ofNat, List.replicate, List.set]

example : sample_midi_track [{ type := "note_off", time := 3, note := 60 }] (5/2) 1 = none := by
  norm_num [sample_midi_track, sample_go, run_while, trip_count, off_event,
    ceil_via_floor, Int.toNat_ofNat, List.replicate, List.set]

example : (⌈(((3:ℕ) : ℚ) - (5/2) / 4) / (5/2)⌉ : Int) = 1 := by
  norm_num [ceil_via_floor]

example : build_vocab ["0-64", "0-64", "0-67", "0-64"] =
    ([("0-64", 0), ("0-67", 1)], [(0, "0-64"), (1, "0-67")]) := by decide

example : tokens_to_ids ["0-64", "unseen-token"] [("0-64", 0)] = [0, 0] := by decide

example : py_slice ["a", "b", "c"] 0 (-1) = ["a", "b"] := by decide

/-- Characterization of the per-track loop of `normalize`: on success the
output has one track per input track, and track `i` is the input track `i`
transposed by the offset of the key obtained by scanning tracks `0..i`
starting from the carried key `k`. -/
theorem normalize_tracks_char (ts : List (List Msg)) :
    ∀ (k : String) (ts2 : List (List Msg)), normalize_tracks k ts = some ts2 →
      ts2.length = ts.length ∧
      ∀ i, i < ts.length → ∃ d,
        reference ((ts.take (i + 1)).foldl scan_key k) = some d ∧
        ts2.getD i [] = apply_diff d (ts.getD i []) := by
  induction ts with
  | nil =>
    intro k ts2 h
    simp only [normalize_tracks, Option.some.injEq] at h
    subst h
    exact ⟨rfl, fun i hi => absurd hi (by simp)⟩
  | cons t ts ih =>
    intro k ts2 h
    simp only [normalize_tracks] at h
    cases href : reference (scan_key k t) with
    | none => rw [href] at h; exact absurd h (by simp)
    | some d =>
      rw [href] at h
      cases hrec : normalize_tracks (scan_key k t) ts with
      | none => rw [hrec] at h; exact absurd h (by simp)
      | some rest =>
        rw [hrec] at h
        simp only [Option.some.injEq] at h
        subst h
        obtain ⟨hlen, hidx⟩ := ih (scan_key k t) rest hrec
        refine ⟨by simp [hlen], ?_⟩
        intro i hi
        cases i with
        | zero =>
          exact ⟨d, by simpa [scan_key] using href, by simp⟩
        | succ j =>
          obtain ⟨d2, hd2, he⟩ := hidx j (by simpa using hi)
          exact ⟨d2, by simpa using hd2, by simpa using he⟩

/-- On success, `normalize` only rebuilds the tracks through
`normalize_tracks` and overwrites `ticks_per_beat` when a track exists. -/
theorem normalize_parts (m m2 : MidiFile) (h : normalize m = some m2) :
    normalize_tracks "C" m.tracks = some m2.tracks ∧
    m2.ticks_per_beat = (if m.tracks.isEmpty then m.ticks_per_beat else 120) := by
  unfold normalize at h
  cases hnt : normalize_tracks "C" m.tracks with
  | none => rw [hnt] at h; exact absurd h (by simp)
  | some ts2 =>
    rw [hnt] at h
    simp only [Option.some.injEq] at h
    subst h
    exact ⟨rfl, rfl⟩

/-- C1 (amended): `normalize` does not apply one governing key to the
whole piece; it carries the current key across tracks in stream order.  On
success, track `i` of the result is track `i` of the input with the offset
of the last key-signature declaration found in tracks `0..i` (default the
common tonal center "C") added to every note-on pitch. -/
theorem normalize_key_carried_per_track (m m2 : MidiFile)
    (h : normalize m = some m2) :
    m2.tracks.length = m.tracks.length ∧
    ∀ i, i < m.tracks.length → ∃ d,
      reference ((m.tracks.take (i + 1)).foldl scan_key "C") = some d ∧
      m2.tracks.getD i [] = apply_diff d (m.tracks.getD i []) :=
  normalize_tracks_char m.tracks "C" m2.tracks (normalize_parts m m2 h).1

/-- C1 (counterexample): on `c1_piece` the last key-signature in stream
order over all tracks is "G" (offset +5), so the claimed normalizer turns
the pitch-62 note-on into 67, but `normalize` returns pitch 60: the claim
as stated is false at this input. -/
theorem normalize_single_key_cex :
    last_key_all_tracks c1_piece = "G" ∧
    reference "G" = some 5 ∧
    normalize c1_piece = some c1_out ∧
    ((c1_out.tracks.getD 0 []).getD 1 msg0).note = 60 ∧
    normalize_claimed c1_piece ≠ some c1_out := by
  refine ⟨by decide, by decide, by decide, by decide, by decide⟩

/-- C1 (witness): the per-track-carried-key description instantiated on
`c1_piece`. -/
theorem normalize_key_carried_per_track_witness :
    normalize c1_piece = some c1_out ∧
    (c1_out.tracks.length = c1_piece.tracks.length ∧
     ∀ i, i < c1_piece.tracks.length → ∃ d,
       reference ((c1_piece.tracks.take (i + 1)).foldl scan_key "C") = some d ∧
       c1_out.tracks.getD i [] = apply_diff d (c1_piece.tracks.getD i [])) :=
  ⟨by decide, normalize_key_carried_per_track c1_piece c1_out (by decide)⟩

/-- Pointwise description of `apply_diff`: same length; message `j` keeps
every field except that a note_on gains `d` on its pitch; a message that
is not a note_on is returned unchanged. -/
theorem apply_diff_getD (d : Int) (t : List Msg) (j : Nat) (hj : j < t.length) :
    ((apply_diff d t).getD j msg0).time = (t.getD j msg0).time ∧
    ((apply_diff d t).getD j msg0).type = (t.getD j msg0).type ∧
    ((apply_diff d t).getD j msg0).velocity = (t.getD j msg0).velocity ∧
    ((apply_diff d t).getD j msg0).key = (t.getD j msg0).key ∧
    ((apply_diff d t).getD j msg0).isMeta = (t.getD j msg0).isMeta ∧
    ((t.getD j msg0).type ≠ "note_on" → (apply_diff d t).getD j msg0 = t.getD j msg0) := by
  have hj2 : j < (apply_diff d t).length := by simpa [apply_diff] using hj
  have he : (apply_diff d t).getD j msg0 =
      (if (t.getD j msg0).type = "note_on"
       then { t.getD j msg0 with note := (t.getD j msg0).note + d }
       else t.getD j msg0) := by
    rw [List.getD_eq_getElem _ _ hj2, List.getD_eq_getElem _ _ hj]
    simp [apply_diff]
  by_cases hty : (t.getD j msg0).type = "note_on"
  · rw [he, if_pos hty]
    exact ⟨rfl, rfl, rfl, rfl, rfl, fun hne => absurd hty hne⟩
  · rw [he, if_neg hty]
    exact ⟨rfl, rfl, rfl, rfl, rfl, fun _ => rfl⟩

/-- C7 (amended): normalization changes only note-on pitches and, when the
piece has at least one track, the ticks-per-beat (overwritten with 120; a
piece with no tracks is returned unchanged because the overwrite sits
inside the per-track loop).  Every message keeps its delta-time, type,
velocity, key and meta flag, and every message that is not a note_on
(note-off messages in particular) is left entirely unmodified. -/
theorem normalize_frame (m m2 : MidiFile) (h : normalize m = some m2) :
    (m.tracks = [] → m2 = m) ∧
    (m.tracks ≠ [] → m2.ticks_per_beat = 120) ∧
    m2.tracks.length = m.tracks.length ∧
    ∀ i j, i < m.tracks.length → j < (m.tracks.getD i []).length →
      ((m2.tracks.getD i []).getD j msg0).time = ((m.tracks.getD i []).getD j msg0).time ∧
      ((m2.tracks.getD i []).getD j msg0).type = ((m.tracks.getD i []).getD j msg0).type ∧
      ((m2.tracks.getD i []).getD j msg0).velocity = ((m.tracks.getD i []).getD j msg0).velocity ∧
      ((m2.tracks.getD i []).getD j msg0).key = ((m.tracks.getD i []).getD j msg0).key ∧
      ((m2.tracks.getD i []).getD j msg0).isMeta = ((m.tracks.getD i []).getD j msg0).isMeta ∧
      (((m.tracks.getD i []).getD j msg0).type ≠ "note_on" →
        (m2.tracks.getD i []).getD j msg0 = (m.tracks.getD i []).getD j msg0) := by
  obtain ⟨htr, htpb⟩ := normalize_parts m m2 h
  obtain ⟨hlen, hidx⟩ := normalize_tracks_char m.tracks "C" m2.tracks htr
  refine ⟨?_, ?_, hlen, ?_⟩
  · intro hnil
    have h2 : m2.tracks = [] := List.eq_nil_of_length_eq_zero (by simp [hlen, hnil])
    cases m with
    | mk tpb tr =>
      cases m2 with
      | mk tpb2 tr2 =>
        simp only at hnil h2
        subst hnil h2
        simp only [List.isEmpty_nil, if_true] at htpb
        simp [htpb]
  · intro hne
    rw [htpb, if_neg (by simpa [List.isEmpty_iff] using hne)]
  · intro i j hi hj
    obtain ⟨d, _, he⟩ := hidx i hi
    rw [he]
    exact apply_diff_getD d (m.tracks.getD i []) j hj

/-- C7 (counterexample): on a piece with no tracks the per-track loop
never runs, so ticks-per-beat is not overwritten with 120; it keeps its
original value 100.  The claim as stated (ticks-per-beat overwritten with
the constant 120) is false at this input. -/
theorem normalize_tpb_not_overwritten_cex :
    normalize { ticks_per_beat := 100, tracks := [] } =
      some { ticks_per_beat := 100, tracks := [] } ∧
    (100 : Nat) ≠ 120 := by
  exact ⟨by decide, by decide⟩

/-- C7 (witness): the frame theorem instantiated on `c7_piece`. -/
theorem normalize_frame_witness :
    normalize c7_piece = some c7_out ∧
    ((c7_piece.tracks = [] → c7_out = c7_piece) ∧
     (c7_piece.tracks ≠ [] → c7_out.ticks_per_beat = 120) ∧
     c7_out.tracks.length = c7_piece.tracks.length ∧
     ∀ i j, i < c7_piece.tracks.length → j < (c7_piece.tracks.getD i []).length →
       ((c7_out.tracks.getD i []).getD j msg0).time = ((c7_piece.tracks.getD i []).getD j msg0).time ∧
       ((c7_out.tracks.getD i []).getD j msg0).type = ((c7_piece.tracks.getD i []).getD j msg0).type ∧
       ((c7_out.tracks.getD i []).getD j msg0).velocity = ((c7_piece.tracks.getD i []).getD j msg0).velocity ∧
       ((c7_out.tracks.getD i []).getD j msg0).key = ((c7_piece.tracks.getD i []).getD j msg0).key ∧
       ((c7_out.tracks.getD i []).getD j msg0).isMeta = ((c7_piece.tracks.getD i []).getD j msg0).isMeta ∧
       (((c7_piece.tracks.getD i []).getD j msg0).type ≠ "note_on" →
         (c7_out.tracks.getD i []).getD j msg0 = (c7_piece.tracks.getD i []).getD j msg0)) :=
  ⟨by decide, normalize_frame c7_piece c7_out (by decide)⟩

/-- The while loop of `sample_midi_track` keeps the cursor on the grid
`q + idx * i` and never writes out of bounds as long as the target time
`next` lies within the grid span of the buffer. -/
theorem run_while_isSome (i q : ℚ) (hi : 0 < i) (isOff : Bool) (note : Int) (next : ℚ) :
    ∀ (fuel : Nat) (cur : ℚ) (idx : Nat) (s : List Int),
      cur = q + idx * i → next ≤ q + s.length * i →
      ∃ cur2 idx2 s2,
        run_while i isOff note next fuel cur idx s = some (cur2, idx2, s2) ∧
        cur2 = q + idx2 * i ∧ s2.length = s.length := by
  intro fuel
  induction fuel with
  | zero => intro cur idx s hcur _; exact ⟨cur, idx, s, rfl, hcur, rfl⟩
  | succ f ih =>
    intro cur idx s hcur hnext
    by_cases hg : cur < next
    · have hidx : idx < s.length := by
        have h1 : q + (idx : ℚ) * i < q + (s.length : ℚ) * i := by
          calc q + (idx : ℚ) * i = cur := hcur.symm
          _ < next := hg
          _ ≤ q + (s.length : ℚ) * i := hnext
        have h2 : (idx : ℚ) < (s.length : ℚ) :=
          lt_of_mul_lt_mul_right (by linarith) (le_of_lt hi)
        exact_mod_cast h2
      have hcur2 : cur + i = q + ((idx + 1 : Nat) : ℚ) * i := by
        rw [hcur]; push_cast; ring
      cases isOff with
      | true =>
        obtain ⟨c2, i2, s2, he, hc, hl⟩ :=
          ih (cur + i) (idx + 1) (s.set idx note) hcur2 (by simpa using hnext)
        refine ⟨c2, i2, s2, ?_, hc, by simpa using hl⟩
        simp only [run_while, if_pos hg, if_pos hidx, if_true]
        exact he
      | false =>
        obtain ⟨c2, i2, s2, he, hc, hl⟩ := ih (cur + i) (idx + 1) s hcur2 hnext
        refine ⟨c2, i2, s2, ?_, hc, hl⟩
        simp only [run_while, if_pos hg, Bool.false_eq_true, if_false]
        exact he
    · exact ⟨cur, idx, s, by simp only [run_while, if_neg hg], hcur, rfl⟩

/-- The message loop of `sample_midi_track` succeeds whenever the total
elapsed time stays within the grid span of the buffer. -/
theorem sample_go_isSome (i q : ℚ) (hi : 0 < i) :
    ∀ (track : List Msg) (cur : ℚ) (next idx : Nat) (s : List Int),
      cur = q + idx * i →
      (next : ℚ) + (sum_times track : ℚ) ≤ q + s.length * i →
      (sample_go i track cur next idx s).isSome := by
  intro track
  induction track with
  | nil => intro cur next idx s _ _; simp [sample_go]
  | cons msg rest ih =>
    intro cur next idx s hcur hnext
    have hs : (sum_times (msg :: rest) : ℚ) = (msg.time : ℚ) + (sum_times rest : ℚ) := by
      simp [sum_times]
    have hb : ((next + msg.time : Nat) : ℚ) ≤ q + s.length * i := by
      push_cast
      have h0 : (0:ℚ) ≤ (sum_times rest : ℚ) := by positivity
      rw [hs] at hnext
      linarith
    obtain ⟨c2, i2, s2, he, hc, hl⟩ :=
      run_while_isSome i q hi (off_event msg) msg.note ((next + msg.time : Nat) : ℚ)
        (trip_count i cur ((next + msg.time : Nat) : ℚ)) cur idx s hcur hb
    simp only [sample_go, he]
    apply ih c2 (next + msg.time) i2 s2 hc
    rw [hl]
    push_cast
    rw [hs] at hnext
    linarith

/-- `sample_midi_track` succeeds whenever the track duration stays within
the grid span of the buffer measured from the initial cursor
`⌊interval/4⌋`. -/
theorem sample_midi_track_isSome (track : List Msg) (i : ℚ) (n : Nat) (hi : 0 < i)
    (h : (sum_times track : ℚ) ≤ ((⌊i / 4⌋ : Int) : ℚ) + n * i) :
    (sample_midi_track track i n).isSome := by
  unfold sample_midi_track
  apply sample_go_isSome i ((⌊i / 4⌋ : Int) : ℚ) hi track _ 0 0 _ (by ring)
  simpa using h

/-- The running maximum never drops below its initial value. -/
theorem init_le_foldl_max (l : List Nat) : ∀ c : Nat, c ≤ l.foldl max c := by
  induction l with
  | nil => intro c; exact Nat.le_refl c
  | cons d l ih => intro c; exact le_trans (Nat.le_max_left c d) (ih (max c d))

/-- Every element of a list is at most the running maximum. -/
theorem mem_le_foldl_max (l : List Nat) : ∀ (a x : Nat), x ∈ l → x ≤ l.foldl max a := by
  induction l with
  | nil => intro a x hx; cases hx
  | cons b l ih =>
    intro a x hx
    cases hx with
    | head => exact le_trans (Nat.le_max_right a b) (init_le_foldl_max l (max a b))
    | tail _ hx2 => exact ih (max a b) x hx2

/-- C9 (amended): with the initial cursor `⌊interval/4⌋` (the claim wrote
the unfloored `interval/4`; the two coincide whenever the interval is a
multiple of 4, in particular for every normalized piece), a sample count
of at least `ceil((track duration - ⌊interval/4⌋) / interval)` keeps every
buffer write of `sample_midi_track` in bounds; the count `piano_roll`
computes satisfies that precondition for each of its selected tracks; and
without the precondition an off-type event past the last slot reaches the
out-of-bounds write. -/
theorem sample_writes_in_bounds :
    (∀ (track : List Msg) (i : ℚ) (n : Nat), 0 < i →
        ⌈((sum_times track : ℚ) - ((⌊i / 4⌋ : Int) : ℚ)) / i⌉ ≤ (n : Int) →
        (sample_midi_track track i n).isSome) ∧
    (∀ (select : List (List Msg) → List (List Msg)) (m : MidiFile),
        0 < m.ticks_per_beat → ∀ t ∈ pr_selected select m,
        ⌈((sum_times t : ℚ) - ((⌊pr_interval m / 4⌋ : Int) : ℚ)) / pr_interval m⌉ ≤
          (pr_num_samples select m : Int)) ∧
    sample_midi_track [{ type := "note_off", time := 3, note := 60 }] (5/2) 1 = none := by
  refine ⟨?_, ?_, ?_⟩
  · intro track i n hi h
    apply sample_midi_track_isSome track i n hi
    have h2 : ((sum_times track : ℚ) - ((⌊i / 4⌋ : Int) : ℚ)) / i ≤ (n : ℚ) := by
      have := Int.ceil_le.mp h
      exact_mod_cast this
    rw [div_le_iff hi] at h2
    linarith
  · intro select m hm t ht
    have hi : 0 < pr_interval m := by
      unfold pr_interval
      have : (0:ℚ) < (m.ticks_per_beat : ℚ) := by exact_mod_cast hm
      positivity
    have hq : (0:ℚ) ≤ ((⌊pr_interval m / 4⌋ : Int) : ℚ) := by
      have : (0:Int) ≤ ⌊pr_interval m / 4⌋ := Int.floor_nonneg.mpr (by positivity)
      exact_mod_cast this
    have hdur : (sum_times t : ℚ) ≤ (pr_max_dur select m : ℚ) := by
      have : sum_times t ≤ pr_max_dur select m := by
        unfold pr_max_dur
        exact mem_le_foldl_max _ 0 _ (List.mem_map_of_mem sum_times ht)
      exact_mod_cast this
    have hle : ((sum_times t : ℚ) - ((⌊pr_interval m / 4⌋ : Int) : ℚ)) / pr_interval m ≤
        (((pr_max_dur select m : Nat) : ℚ) + ((⌊pr_interval m / 4⌋ : Int) : ℚ)) / pr_interval m :=
      (div_le_div_right hi).mpr (by linarith)
    have hnn : (0:ℤ) ≤ ⌈(((pr_max_dur select m : Nat) : ℚ) + ((⌊pr_interval m / 4⌋ : Int) : ℚ)) /
        pr_interval m⌉ := Int.ceil_nonneg (by positivity)
    have hcast : (pr_num_samples select m : Int) =
        ⌈(((pr_max_dur select m : Nat) : ℚ) + ((⌊pr_interval m / 4⌋ : Int) : ℚ)) / pr_interval m⌉ := by
      unfold pr_num_samples
      exact Int.toNat_of_nonneg hnn
    rw [hcast]
    exact Int.ceil_le_ceil hle
  · norm_num [sample_midi_track, sample_go, run_while, trip_count, off_event,
      ceil_via_floor, Int.toNat_ofNat, List.replicate, List.set]

/-- C9 (counterexample): the claimed precondition with the unfloored
`interval/4` is not sufficient.  With interval 5/2 the cursor starts at
`⌊(5/2)/4⌋ = 0`, not at 5/8, so a single note_off at delta-time 3 forces
writes at indices 0 and 1 although `ceil((3 - (5/2)/4) / (5/2)) = 1`
claims one slot is enough: the write at index 1 is out of bounds. -/
theorem sample_writes_in_bounds_cex :
    ⌈((sum_times [{ type := "note_off", time := 3, note := 60 }] : ℚ) - (5/2) / 4) / (5/2)⌉ ≤
      ((1 : Nat) : Int) ∧
    sample_midi_track [{ type := "note_off", time := 3, note := 60 }] (5/2) 1 = none := by
  constructor
  · norm_num [sum_times, ceil_via_floor]
  · norm_num [sample_midi_track, sample_go, run_while, trip_count, off_event,
      ceil_via_floor, Int.toNat_ofNat, List.replicate, List.set]

/-- C9 (witness): the in-bounds statement instantiated at a single
note_off of delta-time 59, interval 40 and two slots. -/
theorem sample_writes_in_bounds_witness :
    (0:ℚ) < 40 ∧
    ⌈((sum_times [{ type := "note_off", time := 59, note := 64 }] : ℚ) -
        ((⌊(40:ℚ) / 4⌋ : Int) : ℚ)) / 40⌉ ≤ ((2 : Nat) : Int) ∧
    (sample_midi_track [{ type := "note_off", time := 59, note := 64 }] 40 2).isSome :=
  ⟨by norm_num,
   by norm_num [sum_times, ceil_via_floor],
   sample_writes_in_bounds.1 [{ type := "note_off", time := 59, note := 64 }] 40 2
     (by norm_num) (by norm_num [sum_times, ceil_via_floor])⟩

/-- C2 (counterexample): with interval 40 (cursor start 10) and 3 samples
the scenario does not return [0, 64, 64] as claimed. -/
theorem sample_scenario_cex :
    sample_midi_track c2_track 40 3 ≠ some [0, 64, 64] := by
  have he : sample_midi_track c2_track 40 3 = some [64, 64, 0] := by
    norm_num [c2_track, sample_midi_track, sample_go, run_while, trip_count, off_event,
      ceil_via_floor, Int.toNat_ofNat, List.replicate, List.set]
  rw [he]
  decide

/-- C2 (amended): the scenario returns [64, 64, 0]: the note sounds from
time 0 to 59, so the sample points 10 and 50 record pitch 64 (the write
happens while the pending message is the note_off that will end it) and
the sample point 90 stays silent. -/
theorem sample_scenario :
    sample_midi_track c2_track 40 3 = some [64, 64, 0] := by
  norm_num [c2_track, sample_midi_track, sample_go, run_while, trip_count, off_event,
    ceil_via_floor, Int.toNat_ofNat, List.replicate, List.set]

/-- A list of successes collects to a success. -/
theorem opt_list_isSome (l : List (Option (List Int))) (h : ∀ o ∈ l, o.isSome) :
    ∃ l2, opt_list l = some l2 := by
  induction l with
  | nil => exact ⟨[], rfl⟩
  | cons o os ih =>
    obtain ⟨a, ha⟩ := Option.isSome_iff_exists.mp (h o (by simp))
    obtain ⟨l2, hl2⟩ := ih (fun o2 ho2 => h o2 (by simp [ho2]))
    exact ⟨a :: l2, by simp [opt_list, ha, hl2]⟩

/-- Sampling with the interval and count `piano_roll` computes succeeds on
every selected track. -/
theorem pr_sampling_isSome (select : List (List Msg) → List (List Msg)) (m : MidiFile)
    (hm : 0 < m.ticks_per_beat) :
    ∀ t ∈ pr_selected select m,
      (sample_midi_track t (pr_interval m) (pr_num_samples select m)).isSome := by
  intro t ht
  have hi : 0 < pr_interval m := by
    unfold pr_interval
    have h1 : (0:ℚ) < (m.ticks_per_beat : ℚ) := by exact_mod_cast hm
    positivity
  have hq : (0:ℚ) ≤ ((⌊pr_interval m / 4⌋ : Int) : ℚ) := by
    have h1 : (0:Int) ≤ ⌊pr_interval m / 4⌋ := Int.floor_nonneg.mpr (by positivity)
    exact_mod_cast h1
  have hdur : (sum_times t : ℚ) ≤ ((pr_max_dur select m : Nat) : ℚ) := by
    have h1 : sum_times t ≤ pr_max_dur select m :=
      mem_le_foldl_max _ 0 _ (List.mem_map_of_mem sum_times ht)
    exact_mod_cast h1
  have hnn : (0:ℤ) ≤ ⌈(((pr_max_dur select m : Nat) : ℚ) + ((⌊pr_interval m / 4⌋ : Int) : ℚ)) /
      pr_interval m⌉ := Int.ceil_nonneg (by positivity)
  have hceil : (((pr_max_dur select m : Nat) : ℚ) + ((⌊pr_interval m / 4⌋ : Int) : ℚ)) /
      pr_interval m ≤ ((pr_num_samples select m : Nat) : ℚ) := by
    have h1 : ((pr_num_samples select m : Nat) : Int) =
        ⌈(((pr_max_dur select m : Nat) : ℚ) + ((⌊pr_interval m / 4⌋ : Int) : ℚ)) /
          pr_interval m⌉ := by
      unfold pr_num_samples
      exact Int.toNat_of_nonneg hnn
    calc (((pr_max_dur select m : Nat) : ℚ) + ((⌊pr_interval m / 4⌋ : Int) : ℚ)) / pr_interval m
        ≤ ((⌈(((pr_max_dur select m : Nat) : ℚ) + ((⌊pr_interval m / 4⌋ : Int) : ℚ)) /
            pr_interval m⌉ : Int) : ℚ) := Int.le_ceil _
      _ = ((pr_num_samples select m : Nat) : ℚ) := by exact_mod_cast h1.symm
  apply sample_midi_track_isSome t (pr_interval m) (pr_num_samples select m) hi
  have h2 : (((pr_max_dur select m : Nat) : ℚ) + ((⌊pr_interval m / 4⌋ : Int) : ℚ)) ≤
      (pr_num_samples select m : ℚ) * pr_interval m := by
    rw [div_le_iff hi] at hceil
    exact hceil
  linarith

/-- C4 (amended): for a piece with a positive ticks-per-beat and a
nonempty selection, `piano_roll` returns a roll of length exactly
`pr_num_samples`, the ceiling of (largest selected track duration plus
the floored quarter grid-interval `interval // 4`) over the grid interval
(the claim wrote the unfloored `interval/4`; the two coincide whenever 8
divides ticks-per-beat, in particular for normalized pieces where it is
120), and every selected voice is sampled with that same interval and
count. -/
theorem piano_roll_length (select : List (List Msg) → List (List Msg)) (m : MidiFile)
    (hm : 0 < m.ticks_per_beat) (hs : pr_selected select m ≠ []) :
    (piano_roll select m).map List.length = some (pr_num_samples select m) ∧
    ∀ t ∈ pr_selected select m,
      (sample_midi_track t (pr_interval m) (pr_num_samples select m)).isSome := by
  have hsample := pr_sampling_isSome select m hm
  have ht : pr_tracks m ≠ [] := by
    intro h0
    exact hs (by simp [pr_selected, h0])
  refine ⟨?_, hsample⟩
  unfold piano_roll
  cases hpt : pr_tracks m with
  | nil => exact absurd hpt ht
  | cons a as =>
    cases hps : pr_selected select m with
    | nil => exact absurd hps hs
    | cons b bs =>
      rw [if_neg (by omega)]
      have hmap : ∀ o ∈ (pr_selected select m).map
          (fun t => sample_midi_track t (pr_interval m) (pr_num_samples select m)),
          o.isSome := by
        intro o ho
        obtain ⟨t, ht2, rfl⟩ := List.mem_map.mp ho
        exact hsample t ht2
      obtain ⟨l2, hl2⟩ := opt_list_isSome _ hmap
      rw [hps] at hl2
      rw [hl2]
      simp

/-- C4 (witness): the length statement instantiated on `c4_piece` with the
identity selection. -/
theorem piano_roll_length_witness :
    0 < c4_piece.ticks_per_beat ∧
    pr_selected (fun ts => ts) c4_piece ≠ [] ∧
    ((piano_roll (fun ts => ts) c4_piece).map List.length =
        some (pr_num_samples (fun ts => ts) c4_piece) ∧
     ∀ t ∈ pr_selected (fun ts => ts) c4_piece,
       (sample_midi_track t (pr_interval c4_piece)
         (pr_num_samples (fun ts => ts) c4_piece)).isSome) :=
  ⟨by decide, by decide, piano_roll_length (fun ts => ts) c4_piece (by decide) (by decide)⟩

/-- C4 (counterexample): on `c4_cex_piece` the produced roll has length 2,
but the claimed formula `ceil((max_track_duration + interval/4)/interval)`
(with the exact quarter interval) evaluates to 3. -/
theorem piano_roll_length_cex :
    (piano_roll (fun ts => ts) c4_cex_piece).map List.length = some 2 ∧
    (⌈((pr_max_dur (fun ts => ts) c4_cex_piece : ℚ) + pr_interval c4_cex_piece / 4) /
        pr_interval c4_cex_piece⌉).toNat = 3 ∧
    (2 : Nat) ≠ 3 := by
  refine ⟨?_, ?_, by decide⟩
  · norm_num [piano_roll, pr_tracks, pr_selected, pr_num_samples, pr_max_dur, pr_interval,
      c4_cex_piece, sum_times, opt_list, sample_midi_track, sample_go, run_while,
      trip_count, off_event, ceil_via_floor, List.replicate, List.set]
    decide
  · norm_num [pr_max_dur, pr_selected, pr_tracks, pr_interval, c4_cex_piece, sum_times,
      ceil_via_floor]
    decide

/-- C10: `piano_roll` on a piece with at most one track (nothing remains
after dropping the metadata track) raises (modelled `none`: the IndexError
of `len(tracks[0])`) instead of returning an empty roll. -/
theorem piano_roll_needs_two_tracks (select : List (List Msg) → List (List Msg))
    (m : MidiFile) (h : m.tracks.length ≤ 1) :
    piano_roll select m = none := by
  have h0 : pr_tracks m = [] := by
    unfold pr_tracks
    exact List.drop_eq_nil_of_le h
  unfold piano_roll
  rw [h0]

/-- C10 (witness): a piece with exactly one (metadata) track. -/
theorem piano_roll_needs_two_tracks_witness :
    ({ ticks_per_beat := 120, tracks := [[]] } : MidiFile).tracks.length ≤ 1 ∧
    piano_roll (fun ts => ts) { ticks_per_beat := 120, tracks := [[]] } = none :=
  ⟨by decide, piano_roll_needs_two_tracks (fun ts => ts) _ (by decide)⟩

/-- Lookup in the enumerated association list succeeds exactly on members. -/
theorem lookup_enum_from_l_isSome (seen : List String) :
    ∀ (k : Nat) (t : String), (List.lookup t (enum_from_l k seen)).isSome ↔ t ∈ seen := by
  induction seen with
  | nil => intro k t; simp [enum_from_l]
  | cons s ss ih =>
    intro k t
    by_cases hts : t = s
    · subst hts
      simp [enum_from_l, List.lookup]
    · have hbeq : (t == s) = false := by simp [hts]
      simp only [enum_from_l, List.lookup, hbeq]
      rw [ih (k + 1) t]
      simp [hts]

/-- Appending one token extends the enumeration with the next id. -/
theorem enum_from_l_append (seen : List String) :
    ∀ (k : Nat) (t : String),
      enum_from_l k (seen ++ [t]) = enum_from_l k seen ++ [(t, k + seen.length)] := by
  induction seen with
  | nil => intro k t; simp [enum_from_l]
  | cons s ss ih =>
    intro k t
    simp only [List.cons_append, enum_from_l, List.length_cons, List.append_eq]
    rw [ih (k + 1) t]
    have he : k + 1 + ss.length = k + (ss.length + 1) := by omega
    rw [he]

/-- Appending one token extends the reverse enumeration with the next id. -/
theorem enum_from_r_append (seen : List String) :
    ∀ (k : Nat) (t : String),
      enum_from_r k (seen ++ [t]) = enum_from_r k seen ++ [(k + seen.length, t)] := by
  induction seen with
  | nil => intro k t; simp [enum_from_r]
  | cons s ss ih =>
    intro k t
    simp only [List.cons_append, enum_from_r, List.length_cons, List.append_eq]
    rw [ih (k + 1) t]
    have he : k + 1 + ss.length = k + (ss.length + 1) := by omega
    rw [he]

/-- The scanning loop of `build_vocab` builds exactly the enumerations of
the first-occurrence list, for any already-seen state. -/
theorem build_vocab_go_char (ts : List String) :
    ∀ seen : List String,
      build_vocab_go ts (enum_from_l 0 seen) (enum_from_r 0 seen) seen.length =
        (enum_from_l 0 (first_occ_go seen ts), enum_from_r 0 (first_occ_go seen ts)) := by
  induction ts with
  | nil => intro seen; simp [build_vocab_go, first_occ_go]
  | cons t ts ih =>
    intro seen
    by_cases hmem : t ∈ seen
    · obtain ⟨j, hj⟩ := Option.isSome_iff_exists.mp
        ((lookup_enum_from_l_isSome seen 0 t).mpr hmem)
      simp only [build_vocab_go, hj, first_occ_go, if_pos hmem]
      exact ih seen
    · have hnone : List.lookup t (enum_from_l 0 seen) = none := by
        rw [← Option.not_isSome_iff_eq_none]
        rw [lookup_enum_from_l_isSome seen 0 t]
        exact hmem
      simp only [build_vocab_go, hnone, first_occ_go, if_neg hmem]
      have hl := enum_from_l_append seen 0 t
      have hr := enum_from_r_append seen 0 t
      rw [Nat.zero_add] at hl hr
      rw [← hl, ← hr]
      have hlen : seen.length + 1 = (seen ++ [t]).length := by simp
      rw [hlen]
      exact ih (seen ++ [t])

/-- `build_vocab` produces exactly the first-occurrence enumeration. -/
theorem build_vocab_eq (tokens : List String) :
    build_vocab tokens =
      (enum_from_l 0 (first_occ tokens), enum_from_r 0 (first_occ tokens)) := by
  have h := build_vocab_go_char tokens []
  simpa [build_vocab, enum_from_l, enum_from_r, first_occ] using h

/-- Every token of the input occurs in the first-occurrence list. -/
theorem mem_first_occ_go (ts : List String) :
    ∀ (acc : List String) (t : String), t ∈ acc ∨ t ∈ ts → t ∈ first_occ_go acc ts := by
  induction ts with
  | nil =>
    intro acc t ht
    cases ht with
    | inl h => exact h
    | inr h => cases h
  | cons s ss ih =>
    intro acc t ht
    by_cases hs : s ∈ acc
    · rw [first_occ_go, if_pos hs]
      apply ih acc t
      cases ht with
      | inl h => exact Or.inl h
      | inr h =>
        cases h with
        | head => exact Or.inl hs
        | tail _ h2 => exact Or.inr h2
    · rw [first_occ_go, if_neg hs]
      apply ih (acc ++ [s]) t
      cases ht with
      | inl h => exact Or.inl (List.mem_append_left _ h)
      | inr h =>
        cases h with
        | head => exact Or.inl (List.mem_append_right _ (by simp))
        | tail _ h2 => exact Or.inr h2

/-- Ids in the enumeration starting at `k` are at least `k`. -/
theorem lookup_enum_from_l_ge (seen : List String) :
    ∀ (k : Nat) (t : String) (j : Nat),
      List.lookup t (enum_from_l k seen) = some j → k ≤ j := by
  induction seen with
  | nil => intro k t j h; simp [enum_from_l, List.lookup] at h
  | cons s ss ih =>
    intro k t j h
    by_cases hts : t = s
    · subst hts
      simp [enum_from_l, List.lookup] at h
      omega
    · have hbeq : (t == s) = false := by simp [hts]
      simp only [enum_from_l, List.lookup, hbeq] at h
      exact le_trans (Nat.le_succ k) (ih (k + 1) t j h)

/-- Round trip through the two enumerations: a member token looks up to an
id that looks up back to the token. -/
theorem lookup_enum_round_trip (seen : List String) :
    ∀ (k : Nat) (t : String), t ∈ seen → ∃ j,
      List.lookup t (enum_from_l k seen) = some j ∧
      List.lookup j (enum_from_r k seen) = some t := by
  induction seen with
  | nil => intro k t ht; cases ht
  | cons s ss ih =>
    intro k t ht
    by_cases hts : t = s
    · subst hts
      exact ⟨k, by simp [enum_from_l, List.lookup], by simp [enum_from_r, List.lookup]⟩
    · have hss : t ∈ ss := by
        cases ht with
        | head => exact absurd rfl hts
        | tail _ h2 => exact h2
      obtain ⟨j, hj1, hj2⟩ := ih (k + 1) t hss
      have hjk : j ≠ k := by
        have := lookup_enum_from_l_ge ss (k + 1) t j hj1
        omega
      refine ⟨j, ?_, ?_⟩
      · have hbeq : (t == s) = false := by simp [hts]
        simp only [enum_from_l, List.lookup, hbeq]
        exact hj1
      · have hbeq2 : (j == k) = false := by simp [hjk]
        simp only [enum_from_r, List.lookup, hbeq2]
        exact hj2

/-- C5: `build_vocab` returns exactly the distinct tokens in
first-occurrence order paired with the consecutive ids 0, 1, 2, ... (so no
token is ever reassigned), and for every token of the input the two
mappings round-trip: `id_to_token[token_to_id[t]] = t`. -/
theorem build_vocab_first_occurrence (tokens : List String) :
    (build_vocab tokens).1 = enum_from_l 0 (first_occ tokens) ∧
    (build_vocab tokens).2 = enum_from_r 0 (first_occ tokens) ∧
    ∀ t ∈ tokens, ∃ j,
      List.lookup t (build_vocab tokens).1 = some j ∧
      List.lookup j (build_vocab tokens).2 = some t := by
  have he := build_vocab_eq tokens
  refine ⟨by rw [he], by rw [he], ?_⟩
  intro t ht
  have hmem : t ∈ first_occ tokens := mem_first_occ_go tokens [] t (Or.inr ht)
  obtain ⟨j, hj1, hj2⟩ := lookup_enum_round_trip (first_occ tokens) 0 t hmem
  exact ⟨j, by rw [he]; exact hj1, by rw [he]; exact hj2⟩

/-- C5 (witness): the spec scenario vocabulary, instantiated at the token
"0-67" (the round-trip hypothesis discharged by computation). -/
theorem build_vocab_first_occurrence_witness :
    ("0-67" ∈ ["0-64", "0-64", "0-67", "0-64"]) ∧
    (∃ j, List.lookup "0-67" (build_vocab ["0-64", "0-64", "0-67", "0-64"]).1 = some j ∧
      List.lookup j (build_vocab ["0-64", "0-64", "0-67", "0-64"]).2 = some "0-67") :=
  ⟨by decide,
   (build_vocab_first_occurrence ["0-64", "0-64", "0-67", "0-64"]).2.2 "0-67" (by decide)⟩

/-- C6: token-to-id conversion is total and never fails: every token maps
to its vocabulary id when present and to 0 when absent, and in particular
["0-64", "unseen-token"] against a vocabulary mapping "0-64" to 0
converts to [0, 0]. -/
theorem tokens_to_ids_total :
    (∀ (ts : List String) (v : List (String × Nat)),
        tokens_to_ids ts v = ts.map fun t => (List.lookup t v).getD 0) ∧
    tokens_to_ids ["0-64", "unseen-token"] [("0-64", 0)] = [0, 0] := by
  constructor
  · intro ts v
    induction ts with
    | nil => simp [tokens_to_ids]
    | cons t ts ih =>
      simp only [tokens_to_ids, ih, List.map_cons]
      congr 1
      cases List.lookup t v <;> rfl
  · decide

/-- For a corpus of at least two tokens, the boundary is at least 1. -/
theorem train_boundary_ge_one (n : Nat) (h : 2 ≤ n) : 1 ≤ train_boundary n := by
  unfold train_boundary train_test_split
  have h1 : (1:Int) ≤ ⌊(4/5 : ℚ) * (n : ℚ)⌋ := by
    apply Int.le_floor.mpr
    have h2 : (2:ℚ) ≤ (n : ℚ) := by exact_mod_cast h
    push_cast
    linarith
  omega

/-- The boundary always lies strictly before the end of the corpus. -/
theorem train_boundary_le (n : Nat) (h : 1 ≤ n) : train_boundary n ≤ n - 1 := by
  unfold train_boundary train_test_split
  have h1 : ⌊(4/5 : ℚ) * (n : ℚ)⌋ < (n : Int) := by
    apply Int.floor_lt.mpr
    have h2 : (1:ℚ) ≤ (n : ℚ) := by exact_mod_cast h
    push_cast
    linarith
  omega

/-- Conversion to ids preserves the length. -/
theorem tokens_to_ids_length (ts : List String) (v : List (String × Nat)) :
    (tokens_to_ids ts v).length = ts.length := by
  induction ts with
  | nil => rfl
  | cons t ts ih => simp [tokens_to_ids, ih]

/-- A Python slice with in-range nonnegative endpoints is a take-then-drop. -/
theorem py_slice_natCast {α : Type} (xs : List α) (a b : Nat)
    (ha : a ≤ xs.length) (hb : b ≤ xs.length) :
    py_slice xs (a : Int) (b : Int) = (xs.take b).drop a := by
  simp only [py_slice]
  have h1 : ¬((b : Int) < 0) := by omega
  have h2 : ¬((a : Int) < 0) := by omega
  rw [if_neg h1, if_neg h2]
  have h3 : (min ((xs.length : Nat) : Int) (b : Int)).toNat = b := by omega
  have h4 : (min ((xs.length : Nat) : Int) (a : Int)).toNat = a := by omega
  rw [h3, h4]

/-- A Python slice ending at -1 stops one before the end. -/
theorem py_slice_neg_one {α : Type} (xs : List α) (a : Nat) (ha : a ≤ xs.length) :
    py_slice xs (a : Int) (-1) = (xs.take (xs.length - 1)).drop a := by
  simp only [py_slice]
  have h1 : ((-1 : Int) < 0) := by omega
  have h2 : ¬((a : Int) < 0) := by omega
  rw [if_pos h1, if_neg h2]
  have h3 : (max 0 (((xs.length : Nat) : Int) + (-1))).toNat = xs.length - 1 := by omega
  have h4 : (min ((xs.length : Nat) : Int) (a : Int)).toNat = a := by omega
  rw [h3, h4]

/-- C3 (amended): for a concatenated corpus of at least two tokens, the
assembler slices are exactly the claimed shifted-by-one windows (train
inputs `tokens[0:b-1]`, train labels `tokens[1:b]`, test inputs
`tokens[b:end-1]`, test labels `tokens[b+1:end]` with `b = floor(0.8 *
total)`) converted to ids, and they satisfy
`len(train_inputs) + len(test_inputs) + 2 = len(all_tokens)` and
`len(train_inputs) = len(train_labels)`.  (For a corpus of fewer than two
tokens the Python negative-index slice `[:b-1]` wraps around and the sum
invariant fails, see the counterexample.) -/
theorem get_data_split (rolls : List (List String))
    (h2 : 2 ≤ (rolls.flatten).length) :
    (get_data rolls).train_input_ids =
      tokens_to_ids ((rolls.flatten).take (train_boundary (rolls.flatten).length - 1))
        (get_data rolls).token_to_id ∧
    (get_data rolls).train_label_ids =
      tokens_to_ids (((rolls.flatten).take (train_boundary (rolls.flatten).length)).drop 1)
        (get_data rolls).token_to_id ∧
    (get_data rolls).test_input_ids =
      tokens_to_ids (((rolls.flatten).take ((rolls.flatten).length - 1)).drop
          (train_boundary (rolls.flatten).length))
        (get_data rolls).token_to_id ∧
    (get_data rolls).test_label_ids =
      tokens_to_ids ((rolls.flatten).drop (train_boundary (rolls.flatten).length + 1))
        (get_data rolls).token_to_id ∧
    (get_data rolls).train_input_ids.length + (get_data rolls).test_input_ids.length + 2 =
      (rolls.flatten).length ∧
    (get_data rolls).train_input_ids.length = (get_data rolls).train_label_ids.length := by
  have hb1 : 1 ≤ train_boundary (rolls.flatten).length := train_boundary_ge_one _ h2
  have hb2 : train_boundary (rolls.flatten).length ≤ (rolls.flatten).length - 1 :=
    train_boundary_le _ (by omega)
  simp only [get_data]
  set all := rolls.flatten with hall
  set b := train_boundary all.length with hbdef
  have e1 : py_slice all 0 ((b : Int) - 1) = all.take (b - 1) := by
    have hc : ((b : Int) - 1) = (((b - 1 : Nat)) : Int) := by omega
    rw [hc, show (0 : Int) = ((0 : Nat) : Int) from by simp]
    rw [py_slice_natCast all 0 (b - 1) (by omega) (by omega)]
    simp
  have e2 : py_slice all 1 (b : Int) = (all.take b).drop 1 := by
    rw [show (1 : Int) = ((1 : Nat) : Int) from by simp]
    exact py_slice_natCast all 1 b (by omega) (by omega)
  have e3 : py_slice all (b : Int) (-1) = (all.take (all.length - 1)).drop b :=
    py_slice_neg_one all b (by omega)
  have e4 : py_slice all ((b : Int) + 1) (all.length : Int) = all.drop (b + 1) := by
    have hc : ((b : Int) + 1) = (((b + 1 : Nat)) : Int) := by omega
    rw [hc, py_slice_natCast all (b + 1) all.length (by omega) (le_refl _)]
    rw [List.take_length]
  refine ⟨by rw [e1], by rw [e2], by rw [e3], by rw [e4], ?_, ?_⟩
  · rw [e1, e3, tokens_to_ids_length, tokens_to_ids_length]
    simp only [List.length_take, List.length_drop]
    omega
  · rw [e1, e2, tokens_to_ids_length, tokens_to_ids_length]
    simp only [List.length_take, List.length_drop]
    omega

/-- C3 (counterexample): on a corpus of a single token the boundary is 0,
the slice `all_notes[:train_length-1]` is `all_notes[:-1]` (Python wraps
the negative endpoint) and all four parts are empty, so
`len(train_inputs) + len(test_inputs) + 2 = 2` differs from the corpus
length 1: the invariant claimed for every corpus fails. -/
theorem get_data_split_cex :
    ¬((get_data [["a"]]).train_input_ids.length + (get_data [["a"]]).test_input_ids.length + 2 =
      (([["a"]] : List (List String)).flatten).length) := by
  have h1 : train_boundary 1 = 0 := by
    unfold train_boundary train_test_split
    norm_num
  norm_num [get_data, h1, py_slice, tokens_to_ids]

/-- C3 (witness): the split statement instantiated on a three-token
corpus. -/
theorem get_data_split_witness :
    2 ≤ (([["a", "b", "c"]] : List (List String)).flatten).length ∧
    ((get_data [["a", "b", "c"]]).train_input_ids =
      tokens_to_ids ((([["a", "b", "c"]] : List (List String)).flatten).take
          (train_boundary (([["a", "b", "c"]] : List (List String)).flatten).length - 1))
        (get_data [["a", "b", "c"]]).token_to_id ∧
    (get_data [["a", "b", "c"]]).train_label_ids =
      tokens_to_ids (((([["a", "b", "c"]] : List (List String)).flatten).take
          (train_boundary (([["a", "b", "c"]] : List (List String)).flatten).length)).drop 1)
        (get_data [["a", "b", "c"]]).token_to_id ∧
    (get_data [["a", "b", "c"]]).test_input_ids =
      tokens_to_ids (((([["a", "b", "c"]] : List (List String)).flatten).take
          ((([["a", "b", "c"]] : List (List String)).flatten).length - 1)).drop
          (train_boundary (([["a", "b", "c"]] : List (List String)).flatten).length))
        (get_data [["a", "b", "c"]]).token_to_id ∧
    (get_data [["a", "b", "c"]]).test_label_ids =
      tokens_to_ids ((([["a", "b", "c"]] : List (List String)).flatten).drop
          (train_boundary (([["a", "b", "c"]] : List (List String)).flatten).length + 1))
        (get_data [["a", "b", "c"]]).token_to_id ∧
    (get_data [["a", "b", "c"]]).train_input_ids.length +
        (get_data [["a", "b", "c"]]).test_input_ids.length + 2 =
      (([["a", "b", "c"]] : List (List String)).flatten).length ∧
    (get_data [["a", "b", "c"]]).train_input_ids.length =
      (get_data [["a", "b", "c"]]).train_label_ids.length) :=
  ⟨by decide, get_data_split [["a", "b", "c"]] (by decide)⟩

/-- C8: one starter per piece, whatever split its tokens fall in: starter
`f` is the first 64 tokens of roll `f` converted with the training
vocabulary, so its length is `min 64 (len roll)`. -/
theorem get_data_starters (rolls : List (List String)) (f : Nat) (hf : f < rolls.length) :
    (get_data rolls).piece_starters.length = rolls.length ∧
    (get_data rolls).piece_starters.getD f [] =
      tokens_to_ids ((rolls.getD f []).take 64) (get_data rolls).token_to_id ∧
    ((get_data rolls).piece_starters.getD f []).length = min 64 (rolls.getD f []).length := by
  refine ⟨by simp [get_data], ?_, ?_⟩
  · simp only [get_data]
    rw [List.getD_eq_getElem _ _ (by simpa using hf), List.getElem_map,
      List.getD_eq_getElem _ _ hf]
  · simp only [get_data]
    rw [List.getD_eq_getElem _ _ (by simpa using hf), List.getElem_map,
      tokens_to_ids_length, List.length_take, List.getD_eq_getElem _ _ hf]

/-- C8 (witness): the starter statement instantiated on a one-piece corpus
with a one-token roll. -/
theorem get_data_starters_witness :
    0 < ([["x"]] : List (List String)).length ∧
    ((get_data [["x"]]).piece_starters.length = ([["x"]] : List (List String)).length ∧
    (get_data [["x"]]).piece_starters.getD 0 [] =
      tokens_to_ids ((([["x"]] : List (List String)).getD 0 []).take 64)
        (get_data [["x"]]).token_to_id ∧
    ((get_data [["x"]]).piece_starters.getD 0 []).length =
      min 64 (([["x"]] : List (List String)).getD 0 []).length) :=
  ⟨by decide, get_data_starters [["x"]] 0 (by decide)⟩

end Preproc
